import Mathlib

/-!
Verification of the shairport-sync metadata reader: a shallow embedding of
the metadata classifier (src/metadata.rs), the binary frame decoder and the
line-oriented textual decoder (src/parser.rs), and the one-shot timeout
wrapper (src/lib.rs), together with theorems settling the specification
claims about them.

Bytes are modelled as `Nat` (the code only ever produces values < 256),
text as `List Char` / `String`, and fallible operations as `Except`.
-/

/-- One raw decoded record (src/metadata.rs, `MetadataItem`): a type tag, a
code tag and an opaque payload. -/
structure MetadataItem where
  item_type : String
  code : String
  data : List Nat
deriving Repr, DecidableEq

/-- The closed union of classified metadata events
(src/metadata.rs, `ShairportMetadata`). -/
inductive ShairportMetadata where
  | Title (s : String)
  | Artist (s : String)
  | Album (s : String)
  | Genre (s : String)
  | Year (s : String)
  | Comment (s : String)
  | Composer (s : String)
  | Copyright (s : String)
  | TrackNumber (s : String)
  | TrackCount (s : String)
  | DiscNumber (s : String)
  | DiscCount (s : String)
  | TrackTime (s : String)
  | SampleRate (s : String)
  | ItemId (s : String)
  | MediaKind (s : String)
  | DataKind (s : String)
  | PersistentId (s : String)
  | SortTitle (s : String)
  | SortArtist (s : String)
  | SortAlbum (s : String)
  | SortComposer (s : String)
  | UserRating (s : String)
  | DataUrl (s : String)
  | DateAdded (s : String)
  | DateModified (s : String)
  | TimeStamp (s : String)
  | Kind (s : String)
  | PlayBegin
  | PlayEnd
  | PlayFlush
  | PlayResume
  | PlayVolume (s : String)
  | StreamTitle (s : String)
  | StreamName (s : String)
  | UserAgent (s : String)
  | ActiveBegin
  | ActiveEnd
  | Progress (s : String)
  | MetadataStart (s : String)
  | MetadataEnd (s : String)
  | Capabilities (s : String)
  | MediaPlayer (data : List Nat)
  | Picture (data : List Nat)
  | Other (item_type : String) (code : String) (data : List Nat)
deriving Repr, DecidableEq

/-- The error type of the crate (src/error.rs, `MetadataError`); the decoders
only ever produce `InvalidFormat` (the `Io`/`Parse`/`Utf8` variants arise in
code outside the decoding core). -/
inductive MetadataError where
  | Io
  | Parse (s : String)
  | InvalidFormat
  | Utf8
deriving Repr, DecidableEq

/-- UTF-8 validity and decoding of a byte list, exactly as Rust's
`String::from_utf8` / `str::from_utf8` accept it: continuation bytes in
`0x80..=0xBF`, excluded overlong forms (first byte `0xC2..=0xDF`, the `0xE0`
and `0xF0` tightened second-byte ranges), excluded surrogates (`0xED`) and
codepoints above `0x10FFFF` (`0xF4`). Returns the decoded scalar values. -/
def utf8Decode : List Nat → Option (List Char)
  | [] => some []
  | b :: rest =>
    if b < 128 then
      (utf8Decode rest).map (fun cs => Char.ofNat b :: cs)
    else if 194 ≤ b ∧ b ≤ 223 then
      match rest with
      | b1 :: r =>
        if 128 ≤ b1 ∧ b1 ≤ 191 then
          (utf8Decode r).map (fun cs => Char.ofNat ((b - 192) * 64 + (b1 - 128)) :: cs)
        else none
      | [] => none
    else if 224 ≤ b ∧ b ≤ 239 then
      match rest with
      | b1 :: b2 :: r =>
        if (if b = 224 then 160 ≤ b1 ∧ b1 ≤ 191
            else if b = 237 then 128 ≤ b1 ∧ b1 ≤ 159
            else 128 ≤ b1 ∧ b1 ≤ 191) ∧ (128 ≤ b2 ∧ b2 ≤ 191) then
          (utf8Decode r).map
            (fun cs => Char.ofNat ((b - 224) * 4096 + (b1 - 128) * 64 + (b2 - 128)) :: cs)
        else none
      | _ => none
    else if 240 ≤ b ∧ b ≤ 244 then
      match rest with
      | b1 :: b2 :: b3 :: r =>
        if (if b = 240 then 144 ≤ b1 ∧ b1 ≤ 191
            else if b = 244 then 128 ≤ b1 ∧ b1 ≤ 143
            else 128 ≤ b1 ∧ b1 ≤ 191) ∧ (128 ≤ b2 ∧ b2 ≤ 191) ∧ (128 ≤ b3 ∧ b3 ≤ 191) then
          (utf8Decode r).map
            (fun cs =>
              Char.ofNat ((b - 240) * 262144 + (b1 - 128) * 4096 + (b2 - 128) * 64 + (b3 - 128)) :: cs)
        else none
      | _ => none
    else none

/-- Lowercase hexadecimal rendering of `n`, zero-padded on the left to width
`w` (Rust's `format!("{:0wx}", n)` for values that fit in `w` digits). -/
def hexPad (w n : Nat) : String :=
  String.mk (List.replicate (w - (Nat.toDigits 16 n).length) '0' ++ Nat.toDigits 16 n)

/-- The `data_str` computation at the top of `ShairportMetadata::from_item`
(src/metadata.rs): empty payload gives the empty string; otherwise the
payload decoded as UTF-8, falling back to lowercase hex pairs when the
payload is not valid UTF-8. -/
def data_str (data : List Nat) : String :=
  if data.isEmpty then ""
  else
    match utf8Decode data with
    | some cs => String.mk cs
    | none => String.join (data.map (fun b => hexPad 2 b))

/-- The classifier `ShairportMetadata::from_item` (src/metadata.rs): a
table lookup on the `(item_type, code)` pair, written as the same ordered
chain of comparisons as the Rust `match`. -/
def ShairportMetadata.from_item (item : MetadataItem) : ShairportMetadata :=
  let ds := data_str item.data
  if item.item_type = "core" ∧ item.code = "minm" then .Title ds
  else if item.item_type = "core" ∧ item.code = "asar" then .Artist ds
  else if item.item_type = "core" ∧ item.code = "asal" then .Album ds
  else if item.item_type = "core" ∧ item.code = "asgn" then .Genre ds
  else if item.item_type = "core" ∧ item.code = "asyr" then .Year ds
  else if item.item_type = "core" ∧ item.code = "ascm" then .Comment ds
  else if item.item_type = "core" ∧ item.code = "asco" then .Composer ds
  else if item.item_type = "core" ∧ item.code = "ascp" then .Copyright ds
  else if item.item_type = "core" ∧ item.code = "astn" then .TrackNumber ds
  else if item.item_type = "core" ∧ item.code = "astc" then .TrackCount ds
  else if item.item_type = "core" ∧ item.code = "asdn" then .DiscNumber ds
  else if item.item_type = "core" ∧ item.code = "asdc" then .DiscCount ds
  else if item.item_type = "core" ∧ item.code = "asdt" then .TrackTime ds
  else if item.item_type = "core" ∧ item.code = "assr" then .SampleRate ds
  else if item.item_type = "core" ∧ item.code = "miid" then .ItemId ds
  else if item.item_type = "core" ∧ item.code = "mikd" then .MediaKind ds
  else if item.item_type = "core" ∧ item.code = "asky" then .DataKind ds
  else if item.item_type = "core" ∧ item.code = "aspl" then .PersistentId ds
  else if item.item_type = "core" ∧ item.code = "asst" then .SortTitle ds
  else if item.item_type = "core" ∧ item.code = "assa" then .SortArtist ds
  else if item.item_type = "core" ∧ item.code = "assu" then .SortAlbum ds
  else if item.item_type = "core" ∧ item.code = "assc" then .SortComposer ds
  else if item.item_type = "core" ∧ item.code = "asur" then .UserRating ds
  else if item.item_type = "core" ∧ item.code = "asul" then .DataUrl ds
  else if item.item_type = "core" ∧ item.code = "asda" then .DateAdded ds
  else if item.item_type = "core" ∧ item.code = "asdm" then .DateModified ds
  else if item.item_type = "core" ∧ item.code = "astm" then .TimeStamp ds
  else if item.item_type = "core" ∧ item.code = "askd" then .Kind ds
  else if item.item_type = "ssnc" ∧ item.code = "pbeg" then .PlayBegin
  else if item.item_type = "ssnc" ∧ item.code = "pend" then .PlayEnd
  else if item.item_type = "ssnc" ∧ item.code = "pfls" then .PlayFlush
  else if item.item_type = "ssnc" ∧ item.code = "prsm" then .PlayResume
  else if item.item_type = "ssnc" ∧ item.code = "pvol" then .PlayVolume ds
  else if item.item_type = "ssnc" ∧ item.code = "stal" then .StreamTitle ds
  else if item.item_type = "ssnc" ∧ item.code = "snam" then .StreamName ds
  else if item.item_type = "ssnc" ∧ item.code = "snua" then .UserAgent ds
  else if item.item_type = "ssnc" ∧ item.code = "abeg" then .ActiveBegin
  else if item.item_type = "ssnc" ∧ item.code = "aend" then .ActiveEnd
  else if item.item_type = "ssnc" ∧ item.code = "prgr" then .Progress ds
  else if item.item_type = "ssnc" ∧ item.code = "mdst" then .MetadataStart ds
  else if item.item_type = "ssnc" ∧ item.code = "mden" then .MetadataEnd ds
  else if item.item_type = "core" ∧ item.code = "caps" then .Capabilities ds
  else if item.item_type = "core" ∧ item.code = "mper" then .MediaPlayer item.data
  else if (item.item_type = "ssnc" ∧ item.code = "pict") ∨ item.item_type = "pict"
      ∨ (item.item_type = "core" ∧ item.code = "PICT") then .Picture item.data
  else .Other item.item_type item.code item.data

/-- The `(type, code)` pairs present in the classifier's lookup table: the
disjunction of the guard of every non-fallback arm of `from_item`. -/
def inTable (t c : String) : Prop :=
  (t = "core" ∧ c = "minm") ∨ (t = "core" ∧ c = "asar") ∨ (t = "core" ∧ c = "asal")
  ∨ (t = "core" ∧ c = "asgn") ∨ (t = "core" ∧ c = "asyr") ∨ (t = "core" ∧ c = "ascm")
  ∨ (t = "core" ∧ c = "asco") ∨ (t = "core" ∧ c = "ascp") ∨ (t = "core" ∧ c = "astn")
  ∨ (t = "core" ∧ c = "astc") ∨ (t = "core" ∧ c = "asdn") ∨ (t = "core" ∧ c = "asdc")
  ∨ (t = "core" ∧ c = "asdt") ∨ (t = "core" ∧ c = "assr") ∨ (t = "core" ∧ c = "miid")
  ∨ (t = "core" ∧ c = "mikd") ∨ (t = "core" ∧ c = "asky") ∨ (t = "core" ∧ c = "aspl")
  ∨ (t = "core" ∧ c = "asst") ∨ (t = "core" ∧ c = "assa") ∨ (t = "core" ∧ c = "assu")
  ∨ (t = "core" ∧ c = "assc") ∨ (t = "core" ∧ c = "asur") ∨ (t = "core" ∧ c = "asul")
  ∨ (t = "core" ∧ c = "asda") ∨ (t = "core" ∧ c = "asdm") ∨ (t = "core" ∧ c = "astm")
  ∨ (t = "core" ∧ c = "askd") ∨ (t = "ssnc" ∧ c = "pbeg") ∨ (t = "ssnc" ∧ c = "pend")
  ∨ (t = "ssnc" ∧ c = "pfls") ∨ (t = "ssnc" ∧ c = "prsm") ∨ (t = "ssnc" ∧ c = "pvol")
  ∨ (t = "ssnc" ∧ c = "stal") ∨ (t = "ssnc" ∧ c = "snam") ∨ (t = "ssnc" ∧ c = "snua")
  ∨ (t = "ssnc" ∧ c = "abeg") ∨ (t = "ssnc" ∧ c = "aend") ∨ (t = "ssnc" ∧ c = "prgr")
  ∨ (t = "ssnc" ∧ c = "mdst") ∨ (t = "ssnc" ∧ c = "mden") ∨ (t = "core" ∧ c = "caps")
  ∨ (t = "core" ∧ c = "mper") ∨ (t = "ssnc" ∧ c = "pict") ∨ t = "pict"
  ∨ (t = "core" ∧ c = "PICT")

set_option synthInstance.maxSize 2000 in

set_option maxHeartbeats 1000000 in
instance (t c : String) : Decidable (inTable t c) := by
  unfold inTable; infer_instance

lemma data_str_utf8 (d : List Nat) (cs : List Char) (h : utf8Decode d = some cs) :
    data_str d = String.mk cs := by
  rcases d with _ | ⟨b, rest⟩
  · have h2 : ([] : List Char) = cs := Option.some.inj h
    subst h2
    rfl
  · unfold data_str
    rw [h]
    rfl

lemma data_str_hex (d : List Nat) (h : utf8Decode d = none) :
    data_str d = String.join (d.map (fun b => hexPad 2 b)) := by
  rcases d with _ | ⟨b, rest⟩
  · exact absurd h (by exact Option.some_ne_none [])
  · unfold data_str
    rw [h]
    rfl

/-- Big-endian 32-bit value of a 4-byte slice (`u32::from_be_bytes`). -/
def beU32 : List Nat → Nat
  | [b0, b1, b2, b3] => ((b0 * 256 + b1) * 256 + b2) * 256 + b3
  | _ => 0

/-- Tag rendering in the binary decoder (src/parser.rs lines 33-48):
`String::from_utf8` of the 4 tag bytes, falling back to
`format!("0x{:02x}{:02x}{:02x}{:02x}", ..)`. -/
def tagRender (bs : List Nat) : String :=
  match utf8Decode bs with
  | some cs => String.mk cs
  | none => "0x" ++ String.join (bs.map (fun b => hexPad 2 b))

/-- The binary frame decoder state (src/parser.rs, `MetadataParser`): an
accumulation buffer and a read cursor. -/
structure MetadataParser where
  buffer : List Nat
  position : Nat
deriving Repr, DecidableEq

/-- `MetadataParser::new`. -/
def MetadataParser.new : MetadataParser := ⟨[], 0⟩

/-- `MetadataParser::feed_data`: append the chunk to the buffer. -/
def MetadataParser.feed_data (p : MetadataParser) (data : List Nat) : MetadataParser :=
  ⟨p.buffer ++ data, p.position⟩

/-- `MetadataParser::parse_next_item` (src/parser.rs lines 26-77). The Rust
function returns `Result<Option<MetadataItem>>`, but its only error path
(the `try_into` on the 4-byte length slice) is unreachable once the 12-byte
header check has passed, so the embedding returns `Option MetadataItem`;
when the declared payload length is not yet buffered the cursor is rolled
back by the 12 header bytes, i.e. the state is returned unchanged. -/
def MetadataParser.parse_next_item (p : MetadataParser) :
    MetadataParser × Option MetadataItem :=
  if p.buffer.length - p.position < 12 then (p, none)
  else if p.buffer.length - (p.position + 12) < beU32 ((p.buffer.drop (p.position + 8)).take 4)
  then (p, none)
  else
    (⟨p.buffer, p.position + 12 + beU32 ((p.buffer.drop (p.position + 8)).take 4)⟩,
      some ⟨tagRender ((p.buffer.drop p.position).take 4),
        tagRender ((p.buffer.drop (p.position + 4)).take 4),
        (p.buffer.drop (p.position + 12)).take (beU32 ((p.buffer.drop (p.position + 8)).take 4))⟩)

/-- `MetadataParser::clear_processed`: drop the consumed prefix and reset
the cursor. -/
def MetadataParser.clear_processed (p : MetadataParser) : MetadataParser :=
  if 0 < p.position then ⟨p.buffer.drop p.position, 0⟩ else p

/-- View of one extraction step as a function of the unread byte suffix
alone: the extracted item and the number of bytes consumed. -/
def extractOne (bs : List Nat) : Option (MetadataItem × Nat) :=
  if bs.length < 12 then none
  else if bs.length - 12 < beU32 ((bs.drop 8).take 4) then none
  else
    some (⟨tagRender (bs.take 4), tagRender ((bs.drop 4).take 4),
      (bs.drop 12).take (beU32 ((bs.drop 8).take 4))⟩,
      12 + beU32 ((bs.drop 8).take 4))

lemma parse_next_item_view (B : List Nat) (p : Nat) :
    MetadataParser.parse_next_item ⟨B, p⟩ =
      match extractOne (B.drop p) with
      | none => (⟨B, p⟩, none)
      | some (it, k) => (⟨B, p + k⟩, some it) := by
  unfold MetadataParser.parse_next_item extractOne
  have e4 : (B.drop p).drop 4 = B.drop (p + 4) := List.drop_drop 4 p B
  have e8 : (B.drop p).drop 8 = B.drop (p + 8) := List.drop_drop 8 p B
  have e12 : (B.drop p).drop 12 = B.drop (p + 12) := List.drop_drop 12 p B
  rw [List.length_drop, e4, e8, e12, Nat.sub_sub]
  by_cases h1 : B.length - (p + 12) < beU32 ((B.drop (p + 8)).take 4)
  · by_cases h0 : B.length - p < 12 <;> simp [h0, h1]
  · by_cases h0 : B.length - p < 12 <;> simp [h0, h1, Nat.add_assoc]

lemma extractOne_some_bounds (bs : List Nat) (it : MetadataItem) (k : Nat)
    (h : extractOne bs = some (it, k)) : 12 ≤ k ∧ k ≤ bs.length := by
  unfold extractOne at h
  split_ifs at h with h1 h2
  simp only [Option.some.injEq, Prod.mk.injEq] at h
  omega

lemma parse_next_item_some (B : List Nat) (p : Nat) (q : MetadataParser)
    (it : MetadataItem) (h : MetadataParser.parse_next_item ⟨B, p⟩ = (q, some it)) :
    q.buffer = B ∧ p < q.position ∧ q.position ≤ B.length := by
  rw [parse_next_item_view] at h
  cases hE : extractOne (B.drop p) with
  | none => rw [hE] at h; simp at h
  | some r =>
    obtain ⟨it', k⟩ := r
    rw [hE] at h
    simp only [Prod.mk.injEq] at h
    obtain ⟨hq, -⟩ := h
    have hb := extractOne_some_bounds _ _ _ hE
    rw [List.length_drop] at hb
    subst hq
    exact ⟨rfl, by show p < p + k; omega, by show p + k ≤ B.length; omega⟩

/-- The caller's drain loop: repeatedly `parse_next_item` until it yields
nothing, collecting the extracted records in order. -/
def MetadataParser.drain (p : MetadataParser) : MetadataParser × List MetadataItem :=
  match h : p.parse_next_item with
  | (q, none) => (q, [])
  | (q, some it) => ((MetadataParser.drain q).1, it :: (MetadataParser.drain q).2)
termination_by p.buffer.length - p.position
decreasing_by
  all_goals
    obtain ⟨B, pos⟩ := p
    obtain ⟨hb, h1, h2⟩ := parse_next_item_some B pos q it h
    obtain ⟨Bq, posq⟩ := q
    dsimp only at hb h1 h2 ⊢
    subst hb
    omega

/-- Drain at the level of the unread byte suffix: the records extracted and
the total number of bytes consumed. -/
def drainList (bs : List Nat) : List MetadataItem × Nat :=
  match h : extractOne bs with
  | none => ([], 0)
  | some (it, k) => (it :: (drainList (bs.drop k)).1, k + (drainList (bs.drop k)).2)
termination_by bs.length
decreasing_by
  all_goals
    have := extractOne_some_bounds bs it k h
    rw [List.length_drop]
    omega

lemma drainList_none (bs : List Nat) (hE : extractOne bs = none) :
    drainList bs = ([], 0) := by
  conv_lhs => unfold drainList
  split
  · rfl
  · rename_i it k h
    rw [hE] at h
    cases h

lemma drainList_some (bs : List Nat) (it : MetadataItem) (k : Nat)
    (hE : extractOne bs = some (it, k)) :
    drainList bs = (it :: (drainList (bs.drop k)).1, k + (drainList (bs.drop k)).2) := by
  conv_lhs => unfold drainList
  split
  · rename_i h
    rw [hE] at h
    cases h
  · rename_i it' k' h
    rw [hE] at h
    simp only [Option.some.injEq, Prod.mk.injEq] at h
    obtain ⟨h1, h2⟩ := h
    subst h1
    subst h2
    rfl

lemma drain_step_none (p q : MetadataParser) (h : p.parse_next_item = (q, none)) :
    p.drain = (q, []) := by
  conv_lhs => unfold MetadataParser.drain
  split
  · rename_i q' h'
    rw [h] at h'
    simp only [Prod.mk.injEq] at h'
    rw [h'.1]
  · rename_i q' it h'
    rw [h] at h'
    simp at h'

lemma drain_step_some (p q : MetadataParser) (it : MetadataItem)
    (h : p.parse_next_item = (q, some it)) :
    p.drain = ((q.drain).1, it :: (q.drain).2) := by
  conv_lhs => unfold MetadataParser.drain
  split
  · rename_i q' h'
    rw [h] at h'
    simp at h'
  · rename_i q' it' h'
    rw [h] at h'
    simp only [Prod.mk.injEq, Option.some.injEq] at h'
    obtain ⟨h1, h2⟩ := h'
    subst h1
    subst h2
    rfl

lemma drain_view (B : List Nat) :
    ∀ n p, B.length - p ≤ n →
      MetadataParser.drain ⟨B, p⟩ =
        (⟨B, p + (drainList (B.drop p)).2⟩, (drainList (B.drop p)).1) := by
  intro n
  induction n with
  | zero =>
    intro p hp
    have hE : extractOne (B.drop p) = none := by
      unfold extractOne
      rw [if_pos (by rw [List.length_drop]; omega)]
    have hstep : MetadataParser.parse_next_item ⟨B, p⟩ = (⟨B, p⟩, none) := by
      rw [parse_next_item_view, hE]
    rw [drain_step_none _ _ hstep, drainList_none _ hE]
    simp
  | succ n ih =>
    intro p hp
    cases hE : extractOne (B.drop p) with
    | none =>
      have hstep : MetadataParser.parse_next_item ⟨B, p⟩ = (⟨B, p⟩, none) := by
        rw [parse_next_item_view, hE]
      rw [drain_step_none _ _ hstep, drainList_none _ hE]
      simp
    | some r =>
      obtain ⟨it, k⟩ := r
      have hstep : MetadataParser.parse_next_item ⟨B, p⟩ = (⟨B, p + k⟩, some it) := by
        rw [parse_next_item_view, hE]
      have hb := extractOne_some_bounds _ _ _ hE
      rw [List.length_drop] at hb
      rw [drain_step_some _ _ _ hstep, drainList_some _ _ _ hE,
        ih (p + k) (by omega), List.drop_drop]
      simp [Nat.add_assoc]

lemma extractOne_append (bs c : List Nat) (it : MetadataItem) (k : Nat)
    (h : extractOne bs = some (it, k)) : extractOne (bs ++ c) = some (it, k) := by
  unfold extractOne at h ⊢
  split_ifs at h with h1 h2
  have e4 : (bs ++ c).drop 4 = bs.drop 4 ++ c := List.drop_append_of_le_length (by omega)
  have e8 : (bs ++ c).drop 8 = bs.drop 8 ++ c := List.drop_append_of_le_length (by omega)
  have e12 : (bs ++ c).drop 12 = bs.drop 12 ++ c := List.drop_append_of_le_length (by omega)
  have t0 : (bs ++ c).take 4 = bs.take 4 := List.take_append_of_le_length (by omega)
  have t4 : (bs.drop 4 ++ c).take 4 = (bs.drop 4).take 4 :=
    List.take_append_of_le_length (by rw [List.length_drop]; omega)
  have t8 : (bs.drop 8 ++ c).take 4 = (bs.drop 8).take 4 :=
    List.take_append_of_le_length (by rw [List.length_drop]; omega)
  have t12 : (bs.drop 12 ++ c).take (beU32 ((bs.drop 8).take 4))
      = (bs.drop 12).take (beU32 ((bs.drop 8).take 4)) :=
    List.take_append_of_le_length (by rw [List.length_drop]; omega)
  rw [e4, e8, e12, t0, t4, t8, t12,
    if_neg (by rw [List.length_append]; omega),
    if_neg (by rw [List.length_append]; omega)]
  exact h

lemma extractOne_drop_drainList : ∀ n (bs : List Nat), bs.length ≤ n →
    extractOne (bs.drop (drainList bs).2) = none := by
  intro n
  induction n with
  | zero =>
    intro bs hn
    have hE : extractOne bs = none := by
      unfold extractOne
      rw [if_pos (by omega)]
    rw [drainList_none _ hE, List.drop_zero]
    exact hE
  | succ n ih =>
    intro bs hn
    cases hE : extractOne bs with
    | none =>
      rw [drainList_none _ hE, List.drop_zero]
      exact hE
    | some r =>
      obtain ⟨it, k⟩ := r
      have hb := extractOne_some_bounds _ _ _ hE
      rw [drainList_some _ _ _ hE]
      have : bs.drop (k + (drainList (bs.drop k)).2) = (bs.drop k).drop (drainList (bs.drop k)).2 := by
        rw [List.drop_drop, Nat.add_comm]
      rw [this]
      exact ih (bs.drop k) (by rw [List.length_drop]; omega)

lemma drainList_append : ∀ n (bs : List Nat), bs.length ≤ n → ∀ c,
    drainList (bs ++ c) =
      ((drainList bs).1 ++ (drainList (bs.drop (drainList bs).2 ++ c)).1,
        (drainList bs).2 + (drainList (bs.drop (drainList bs).2 ++ c)).2) := by
  intro n
  induction n with
  | zero =>
    intro bs hn c
    have hE : extractOne bs = none := by
      unfold extractOne
      rw [if_pos (by omega)]
    rw [drainList_none _ hE, List.drop_zero]
    simp
  | succ n ih =>
    intro bs hn c
    cases hE : extractOne bs with
    | none =>
      rw [drainList_none _ hE, List.drop_zero]
      simp
    | some r =>
      obtain ⟨it, k⟩ := r
      have hb := extractOne_some_bounds _ _ _ hE
      have hdrop : (bs ++ c).drop k = bs.drop k ++ c := List.drop_append_of_le_length (by omega)
      rw [drainList_some _ _ _ (extractOne_append bs c it k hE), hdrop,
        drainList_some _ _ _ hE,
        ih (bs.drop k) (by rw [List.length_drop]; omega) c]
      have : bs.drop (k + (drainList (bs.drop k)).2) = (bs.drop k).drop (drainList (bs.drop k)).2 := by
        rw [List.drop_drop, Nat.add_comm]
      rw [this]
      simp [Nat.add_assoc]

/-- The claim's chunked-feed procedure on the binary decoder: for each
chunk, `feed_data`, drain all extractable records with `parse_next_item`,
then `clear_processed`; the records of all rounds concatenated in order. -/
def MetadataParser.processChunks : MetadataParser → List (List Nat) → List MetadataItem
  | _, [] => []
  | p, c :: cs =>
    ((p.feed_data c).drain).2 ++
      MetadataParser.processChunks (((p.feed_data c).drain).1.clear_processed) cs

/-- The same procedure expressed on plain byte lists. -/
def modelChunks : List Nat → List (List Nat) → List MetadataItem
  | _, [] => []
  | rem, c :: cs =>
    (drainList (rem ++ c)).1 ++ modelChunks ((rem ++ c).drop (drainList (rem ++ c)).2) cs

lemma processChunks_model (cs : List (List Nat)) :
    ∀ rem, MetadataParser.processChunks ⟨rem, 0⟩ cs = modelChunks rem cs := by
  induction cs with
  | nil => intro rem; rfl
  | cons c cs ih =>
    intro rem
    have hfeed : MetadataParser.feed_data ⟨rem, 0⟩ c = ⟨rem ++ c, 0⟩ := rfl
    have hdrain := drain_view (rem ++ c) (rem ++ c).length 0 (by omega)
    rw [List.drop_zero] at hdrain
    have hclear : MetadataParser.clear_processed ⟨rem ++ c, 0 + (drainList (rem ++ c)).2⟩
        = ⟨(rem ++ c).drop (drainList (rem ++ c)).2, 0⟩ := by
      unfold MetadataParser.clear_processed
      by_cases hm : 0 < (0 + (drainList (rem ++ c)).2 : Nat)
      · rw [if_pos hm]
        simp
      · rw [if_neg hm]
        have h0 : (drainList (rem ++ c)).2 = 0 := by omega
        rw [h0]
        simp
    show ((MetadataParser.feed_data ⟨rem, 0⟩ c).drain).2 ++ _ = _
    rw [hfeed, hdrain]
    show (drainList (rem ++ c)).1 ++
      MetadataParser.processChunks
        (MetadataParser.clear_processed ⟨rem ++ c, 0 + (drainList (rem ++ c)).2⟩) cs = _
    rw [hclear, ih]
    rfl

lemma modelChunks_flatten : ∀ (cs : List (List Nat)) rem, extractOne rem = none →
    modelChunks rem cs = (drainList (rem ++ cs.flatten)).1 := by
  intro cs
  induction cs with
  | nil =>
    intro rem h
    rw [List.flatten_nil, List.append_nil, drainList_none _ h]
    rfl
  | cons c cs ih =>
    intro rem h
    show (drainList (rem ++ c)).1 ++ modelChunks ((rem ++ c).drop (drainList (rem ++ c)).2) cs = _
    rw [List.flatten_cons, ← List.append_assoc,
      drainList_append (rem ++ c).length (rem ++ c) (by omega) cs.flatten,
      ih ((rem ++ c).drop (drainList (rem ++ c)).2)
        (extractOne_drop_drainList (rem ++ c).length (rem ++ c) (by omega))]

/-- Rust's `char::is_whitespace`: the Unicode White_Space property. -/
def rustIsWhitespace (c : Char) : Bool :=
  decide (c.toNat = 9 ∨ c.toNat = 10 ∨ c.toNat = 11 ∨ c.toNat = 12 ∨ c.toNat = 13
    ∨ c.toNat = 32 ∨ c.toNat = 133 ∨ c.toNat = 160 ∨ c.toNat = 5760
    ∨ (8192 ≤ c.toNat ∧ c.toNat ≤ 8202) ∨ c.toNat = 8232 ∨ c.toNat = 8233
    ∨ c.toNat = 8239 ∨ c.toNat = 8287 ∨ c.toNat = 12288)

/-- Rust's `str::trim`: remove leading and trailing whitespace. -/
def rustTrim (cs : List Char) : List Char :=
  ((cs.dropWhile rustIsWhitespace).reverse.dropWhile rustIsWhitespace).reverse

lemma dropWhile_ne_nil_of_mem_nl (cs : List Char) (h : '\n' ∈ cs) :
    cs.dropWhile (fun c => c != '\n') ≠ [] := by
  induction cs with
  | nil => simp at h
  | cons c t ih =>
    rw [List.dropWhile_cons]
    by_cases hc : c = '\n'
    · rw [if_neg (by simp [hc])]
      simp
    · rw [if_pos (by simp [hc])]
      apply ih
      rcases List.mem_cons.mp h with h1 | h1
      · exact absurd h1.symm hc
      · exact h1

/-- The line-splitting loop of `XmlMetadataParser::feed_data` (src/parser.rs
lines 121-128) applied to a text buffer: repeatedly split off the prefix up
to the first newline, queueing it when it is not blank after trimming;
returns the newline-free remainder and the complete lines in order. -/
def splitBuffer (cs : List Char) : List Char × List (List Char) :=
  if h : '\n' ∈ cs then
    ((splitBuffer ((cs.dropWhile (fun c => c != '\n')).tail)).1,
      (if (rustTrim (cs.takeWhile (fun c => c != '\n'))).isEmpty then []
        else [cs.takeWhile (fun c => c != '\n')])
        ++ (splitBuffer ((cs.dropWhile (fun c => c != '\n')).tail)).2)
  else (cs, [])
termination_by cs.length
decreasing_by
  all_goals
    have h1 : cs.dropWhile (fun c => c != '\n') ≠ [] := dropWhile_ne_nil_of_mem_nl cs h
    have h2 : (cs.dropWhile (fun c => c != '\n')).length ≤ cs.length :=
      (List.dropWhile_sublist (fun c => c != '\n')).length_le
    have h3 : 0 < (cs.dropWhile (fun c => c != '\n')).length := List.length_pos.mpr h1
    rw [List.length_tail]
    omega

/-- The textual decoder state (src/parser.rs, `XmlMetadataParser`): a
partial-line text remainder and a queue of complete lines. -/
structure XmlMetadataParser where
  buffer : List Char
  pending_lines : List (List Char)
deriving Repr, DecidableEq

/-- `XmlMetadataParser::new`. -/
def XmlMetadataParser.new : XmlMetadataParser := ⟨[], []⟩

/-- `XmlMetadataParser::feed_data` (src/parser.rs lines 116-130): a chunk
that decodes as UTF-8 is appended to the text remainder, which is then
split into complete lines queued at the back; a chunk that is not valid
UTF-8 leaves the state unchanged (the `if let Ok(text)` has no else arm). -/
def XmlMetadataParser.feed_data (st : XmlMetadataParser) (data : List Nat) :
    XmlMetadataParser :=
  match utf8Decode data with
  | none => st
  | some text =>
    ⟨(splitBuffer (st.buffer ++ text)).1,
      st.pending_lines ++ (splitBuffer (st.buffer ++ text)).2⟩

/-- `XmlMetadataParser::clear_processed` (src/parser.rs lines 197-202): the
remainder is cleared outright past a 10000-length bound. -/
def XmlMetadataParser.clear_processed (st : XmlMetadataParser) : XmlMetadataParser :=
  if 10000 < st.buffer.length then ⟨[], st.pending_lines⟩ else st

/-- Hexadecimal-digit character class `[0-9a-fA-F]` of the header pattern. -/
def isHexDigitChar (c : Char) : Bool :=
  decide (('0' ≤ c ∧ c ≤ '9') ∨ ('a' ≤ c ∧ c ≤ 'f') ∨ ('A' ≤ c ∧ c ≤ 'F'))

/-- The ranges of the Unicode `Nd` (Decimal_Number) general category,
Unicode 15.0: each entry is the first and last scalar value of one
contiguous digit run. -/
def ndRanges : List (Nat × Nat) :=
  [(0x30, 0x39), (0x660, 0x669), (0x6F0, 0x6F9), (0x7C0, 0x7C9), (0x966, 0x96F),
    (0x9E6, 0x9EF), (0xA66, 0xA6F), (0xAE6, 0xAEF), (0xB66, 0xB6F), (0xBE6, 0xBEF),
    (0xC66, 0xC6F), (0xCE6, 0xCEF), (0xD66, 0xD6F), (0xDE6, 0xDEF), (0xE50, 0xE59),
    (0xED0, 0xED9), (0xF20, 0xF29), (0x1040, 0x1049), (0x1090, 0x1099), (0x17E0, 0x17E9),
    (0x1810, 0x1819), (0x1946, 0x194F), (0x19D0, 0x19D9), (0x1A80, 0x1A89),
    (0x1A90, 0x1A99), (0x1B50, 0x1B59), (0x1BB0, 0x1BB9), (0x1C40, 0x1C49),
    (0x1C50, 0x1C59), (0xA620, 0xA629), (0xA8D0, 0xA8D9), (0xA900, 0xA909),
    (0xA9D0, 0xA9D9), (0xA9F0, 0xA9F9), (0xAA50, 0xAA59), (0xABF0, 0xABF9),
    (0xFF10, 0xFF19), (0x104A0, 0x104A9), (0x10D30, 0x10D39), (0x11066, 0x1106F),
    (0x110F0, 0x110F9), (0x11136, 0x1113F), (0x111D0, 0x111D9), (0x112F0, 0x112F9),
    (0x11450, 0x11459), (0x114D0, 0x114D9), (0x11650, 0x11659), (0x116C0, 0x116C9),
    (0x11730, 0x11739), (0x118E0, 0x118E9), (0x11950, 0x11959), (0x11C50, 0x11C59),
    (0x11D50, 0x11D59), (0x11DA0, 0x11DA9), (0x11F50, 0x11F59), (0x16A60, 0x16A69),
    (0x16AC0, 0x16AC9), (0x16B50, 0x16B59), (0x1D7CE, 0x1D7FF), (0x1E140, 0x1E149),
    (0x1E2F0, 0x1E2F9), (0x1E4F0, 0x1E4F9), (0x1E950, 0x1E959), (0x1FBF0, 0x1FBF9)]

/-- The `\d` class of the header pattern: the Rust regex crate's `\d` is
Unicode-aware by default, matching the whole `Nd` (Decimal_Number)
category, not only ASCII `0-9`. -/
def isDigitChar (c : Char) : Bool :=
  ndRanges.any (fun r => decide (r.1 ≤ c.toNat ∧ c.toNat ≤ r.2))

/-- An ASCII decimal digit: the only digits `str::parse::<usize>` accepts. -/
def isAsciiDigit (c : Char) : Bool :=
  decide (48 ≤ c.toNat ∧ c.toNat ≤ 57)

/-- Strip a literal pattern from the front of `cs`, or fail. -/
def stripLit (pat cs : List Char) : Option (List Char) :=
  if pat.isPrefixOf cs then some (cs.drop pat.length) else none

/-- Match the header pattern
`<item><type>([0-9a-fA-F]+)</type><code>([0-9a-fA-F]+)</code><length>(\d+)</length>`
anchored at the start of `cs`, returning the three capture groups. Because
the two character classes exclude `<`, a match forces each group to be the
maximal digit run before the following literal, so greedy matching needs no
backtracking. -/
def headerAt (cs : List Char) : Option (List Char × List Char × List Char) :=
  (stripLit "<item><type>".toList cs).bind fun s1 =>
    if (s1.takeWhile isHexDigitChar).isEmpty then none
    else
      (stripLit "</type><code>".toList (s1.dropWhile isHexDigitChar)).bind fun s2 =>
        if (s2.takeWhile isHexDigitChar).isEmpty then none
        else
          (stripLit "</code><length>".toList (s2.dropWhile isHexDigitChar)).bind fun s3 =>
            if (s3.takeWhile isDigitChar).isEmpty then none
            else
              (stripLit "</length>".toList (s3.dropWhile isDigitChar)).map fun _ =>
                (s1.takeWhile isHexDigitChar, s2.takeWhile isHexDigitChar,
                  s3.takeWhile isDigitChar)

/-- `Regex::captures` of the header pattern on a line: the leftmost match
(the first start position at which `headerAt` succeeds). -/
def findHeader : List Char → Option (List Char × List Char × List Char)
  | [] => none
  | c :: rest =>
    match headerAt (c :: rest) with
    | some r => some r
    | none => findHeader rest

/-- Value of an ASCII decimal digit string. `str::parse::<usize>` fails on
any non-ASCII digit (which `\d` may capture) and on overflow; the caller
checks both before using this value. -/
def digitsVal (ds : List Char) : Nat :=
  ds.foldl (fun a c => a * 10 + (c.toNat - 48)) 0

/-- Value of one hexadecimal digit character. -/
def hexDigitVal (c : Char) : Nat :=
  if c.toNat ≤ 57 then c.toNat - 48
  else if c.toNat ≤ 70 then c.toNat - 55
  else c.toNat - 87

/-- Value of a hexadecimal digit string (`u32::from_str_radix(_, 16)` modulo
overflow, which the caller checks separately). -/
def hexVal (ds : List Char) : Nat :=
  ds.foldl (fun a c => a * 16 + hexDigitVal c) 0

/-- `u32::to_be_bytes`. -/
def u32BeBytes (n : Nat) : List Nat :=
  [n / 16777216 % 256, n / 65536 % 256, n / 256 % 256, n % 256]

/-- Tag rendering in the textual decoder (src/parser.rs lines 149-152):
`String::from_utf8` of the big-endian bytes of the parsed 32-bit tag value,
falling back to `format!("0x{:08x}", n)`. -/
def xmlTag (n : Nat) : String :=
  match utf8Decode (u32BeBytes n) with
  | some cs => String.mk cs
  | none => "0x" ++ hexPad 8 n

/-- Value of one character of the standard base64 alphabet. -/
def b64CharVal (c : Char) : Option Nat :=
  if 'A' ≤ c ∧ c ≤ 'Z' then some (c.toNat - 65)
  else if 'a' ≤ c ∧ c ≤ 'z' then some (c.toNat - 71)
  else if '0' ≤ c ∧ c ≤ '9' then some (c.toNat + 4)
  else if c = '+' then some 62
  else if c = '/' then some 63
  else none

/-- `base64::engine::general_purpose::STANDARD.decode`: standard (not
URL-safe) alphabet with canonical padding required — the length must be a
multiple of four, `=` may appear only as the final one or two characters,
and the unused low bits of the last symbol must be zero; any violation
fails. -/
def b64Decode : List Char → Option (List Nat)
  | [] => some []
  | c1 :: c2 :: c3 :: c4 :: rest =>
    match b64CharVal c1, b64CharVal c2 with
    | some v1, some v2 =>
      if c3 = '=' then
        if c4 = '=' ∧ rest = [] ∧ v2 % 16 = 0 then some [v1 * 4 + v2 / 16] else none
      else
        match b64CharVal c3 with
        | some v3 =>
          if c4 = '=' then
            if rest = [] ∧ v3 % 4 = 0 then
              some [v1 * 4 + v2 / 16, (v2 % 16) * 16 + v3 / 4]
            else none
          else
            match b64CharVal c4 with
            | some v4 =>
              (b64Decode rest).map
                (fun ds => (v1 * 4 + v2 / 16) :: ((v2 % 16) * 16 + v3 / 4)
                  :: ((v3 % 4) * 64 + v4) :: ds)
            | none => none
        | none => none
    | _, _ => none
  | _ => none

/-- Index of the first occurrence of `pat` in `cs` (`str::find` with a
string pattern; indices are character positions, which agree with Rust's
byte positions on the ASCII patterns used here). -/
def findSub (cs pat : List Char) : Option Nat :=
  if pat.isPrefixOf cs then some 0
  else
    match cs with
    | [] => none
    | _ :: t => (findSub t pat).map (fun i => i + 1)
termination_by cs.length

/-- Payload extraction from the base64 line (src/parser.rs lines 171-178):
the text before the first `</data>` is trimmed and base64-decoded; a missing
close tag or undecodable base64 leaves the payload empty. -/
def payloadOf (b64line : List Char) : List Nat :=
  match findSub b64line "</data>".toList with
  | some endPos =>
    match b64Decode (rustTrim (b64line.take endPos)) with
    | some d => d
    | none => []
  | none => []

/-- The literal data-open marker line. -/
def markerLine : List Char := "<data encoding=\"base64\">".toList

/-- The loop body of `XmlMetadataParser::parse_next_metadata` (src/parser.rs
lines 132-195), as a function of the pending-line queue (the only state the
Rust method reads or writes): pop lines until one matches the header
pattern; a length capture that `parse::<usize>` rejects (a non-ASCII
Unicode digit, or overflow) and a tag that overflows `u32` are
`InvalidFormat` errors; a positive declared length requires two more queued
lines (else the header line is pushed back and the call yields nothing),
consuming both when the first is exactly the data-open marker and only the
first otherwise (the payload then stays empty); the assembled record is
classified with `ShairportMetadata::from_item`. -/
def parseQueue : List (List Char) →
    List (List Char) × Except MetadataError (Option ShairportMetadata)
  | [] => ([], .ok none)
  | line :: qt =>
    match findHeader line with
    | none => parseQueue qt
    | some (th, ch, ld) =>
      if ld.all isAsciiDigit = false ∨ 2 ^ 64 ≤ digitsVal ld then (qt, .error .InvalidFormat)
      else if 2 ^ 32 ≤ hexVal th then (qt, .error .InvalidFormat)
      else if 2 ^ 32 ≤ hexVal ch then (qt, .error .InvalidFormat)
      else if 0 < digitsVal ld then
        match qt with
        | a :: b :: qt3 =>
          if rustTrim a = markerLine then
            (qt3, .ok (some (ShairportMetadata.from_item
              ⟨xmlTag (hexVal th), xmlTag (hexVal ch), payloadOf b⟩)))
          else
            (b :: qt3, .ok (some (ShairportMetadata.from_item
              ⟨xmlTag (hexVal th), xmlTag (hexVal ch), []⟩)))
        | _ => (line :: qt, .ok none)
      else
        (qt, .ok (some (ShairportMetadata.from_item
          ⟨xmlTag (hexVal th), xmlTag (hexVal ch), []⟩)))

/-- `XmlMetadataParser::parse_next_metadata`: `parseQueue` on the queue, the
text remainder untouched. -/
def XmlMetadataParser.parse_next_metadata (st : XmlMetadataParser) :
    XmlMetadataParser × Except MetadataError (Option ShairportMetadata) :=
  (⟨st.buffer, (parseQueue st.pending_lines).1⟩, (parseQueue st.pending_lines).2)

lemma parseQueue_some_shrinks :
    ∀ Q Q' e, parseQueue Q = (Q', .ok (some e)) → Q'.length < Q.length := by
  intro Q
  induction Q with
  | nil =>
    intro Q' e h
    simp [parseQueue] at h
  | cons line qt ih =>
    intro Q' e h
    cases hF : findHeader line with
    | none =>
      simp only [parseQueue, hF] at h
      have := ih Q' e h
      simp only [List.length_cons]
      omega
    | some r3 =>
      obtain ⟨th, ch, ld⟩ := r3
      simp only [parseQueue, hF] at h
      split_ifs at h with e1 e2 e3 e4
      · simp at h
      · simp at h
      · simp at h
      · rcases qt with _ | ⟨a, _ | ⟨b, qt3⟩⟩
        · simp at h
        · simp at h
        · dsimp only at h
          split_ifs at h with e5 <;>
          · simp only [Prod.mk.injEq] at h
            obtain ⟨h1, -⟩ := h
            subst h1
            simp only [List.length_cons]
            omega
      · simp only [Prod.mk.injEq] at h
        obtain ⟨h1, -⟩ := h
        subst h1
        simp only [List.length_cons]
        omega

/-- The caller's drain loop over the textual decoder (the
`while let Some(metadata) = parser.parse_next_metadata()?` loops of
src/reader.rs): repeatedly parse until nothing is extracted, collecting the
events in order; an error aborts the loop, discarding the events collected
so far (the `?` operator). -/
def drainQueue (Q : List (List Char)) :
    List (List Char) × Except MetadataError (List ShairportMetadata) :=
  match h : parseQueue Q with
  | (Q', .ok none) => (Q', .ok [])
  | (Q', .ok (some e)) => ((drainQueue Q').1, (drainQueue Q').2.map (fun evs => e :: evs))
  | (Q', .error err) => (Q', .error err)
termination_by Q.length
decreasing_by all_goals exact parseQueue_some_shrinks Q Q' e h

/-- The drain loop at the state level. -/
def XmlMetadataParser.drain (st : XmlMetadataParser) :
    XmlMetadataParser × Except MetadataError (List ShairportMetadata) :=
  (⟨st.buffer, (drainQueue st.pending_lines).1⟩, (drainQueue st.pending_lines).2)

/-- The claim's chunked-feed procedure on the textual decoder: for each
chunk, `feed_data` then drain with `parse_next_metadata`; the events of all
rounds concatenated in order, an error aborting the whole read. -/
def XmlMetadataParser.processChunks : XmlMetadataParser → List (List Nat) →
    Except MetadataError (List ShairportMetadata)
  | _, [] => .ok []
  | st, c :: cs =>
    match (st.feed_data c).drain with
    | (st2, .ok evs) => (XmlMetadataParser.processChunks st2 cs).map (fun r => evs ++ r)
    | (_, .error e) => .error e

/-- `ShairportMetadataReader::read_metadata_once` (src/lib.rs lines 22-31):
`tokio::time::timeout(5s, read_from_file()).unwrap_or_else(|_| Ok(Vec::new()))`.
The real-time race is abstracted into `timedOut`; `inner` is the result the
underlying `read_from_file` call would have produced. On expiry the
`unwrap_or_else` closure returns `Ok(Vec::new())` — a fresh empty vector —
because the events collected inside the dropped future are unreachable. -/
def read_metadata_once (timedOut : Bool)
    (inner : Except MetadataError (List ShairportMetadata)) :
    Except MetadataError (List ShairportMetadata) :=
  if timedOut then .ok [] else inner

lemma utf8Decode_cons_ascii (b : Nat) (rest : List Nat) (hb : b < 128) :
    utf8Decode (b :: rest) = (utf8Decode rest).map (fun cs => Char.ofNat b :: cs) := by
  rcases rest with _ | ⟨b1, _ | ⟨b2, _ | ⟨b3, r⟩⟩⟩
  · have h0 : utf8Decode [b]
        = (if b < 128 then (utf8Decode ([] : List Nat)).map (fun cs => Char.ofNat b :: cs)
          else if 194 ≤ b ∧ b ≤ 223 then none
          else if 224 ≤ b ∧ b ≤ 239 then none
          else if 240 ≤ b ∧ b ≤ 244 then none
          else none) := rfl
    rw [h0, if_pos hb]
  · have h0 : utf8Decode [b, b1]
        = (if b < 128 then (utf8Decode [b1]).map (fun cs => Char.ofNat b :: cs)
          else if 194 ≤ b ∧ b ≤ 223 then
            (if 128 ≤ b1 ∧ b1 ≤ 191 then
              (utf8Decode ([] : List Nat)).map
                (fun cs => Char.ofNat ((b - 192) * 64 + (b1 - 128)) :: cs)
            else none)
          else if 224 ≤ b ∧ b ≤ 239 then none
          else if 240 ≤ b ∧ b ≤ 244 then none
          else none) := rfl
    rw [h0, if_pos hb]
  · have h0 : utf8Decode [b, b1, b2]
        = (if b < 128 then (utf8Decode [b1, b2]).map (fun cs => Char.ofNat b :: cs)
          else if 194 ≤ b ∧ b ≤ 223 then
            (if 128 ≤ b1 ∧ b1 ≤ 191 then
              (utf8Decode [b2]).map
                (fun cs => Char.ofNat ((b - 192) * 64 + (b1 - 128)) :: cs)
            else none)
          else if 224 ≤ b ∧ b ≤ 239 then
            (if (if b = 224 then 160 ≤ b1 ∧ b1 ≤ 191
                else if b = 237 then 128 ≤ b1 ∧ b1 ≤ 159
                else 128 ≤ b1 ∧ b1 ≤ 191) ∧ (128 ≤ b2 ∧ b2 ≤ 191) then
              (utf8Decode ([] : List Nat)).map
                (fun cs => Char.ofNat ((b - 224) * 4096 + (b1 - 128) * 64 + (b2 - 128)) :: cs)
            else none)
          else if 240 ≤ b ∧ b ≤ 244 then none
          else none) := rfl
    rw [h0, if_pos hb]
  · have h0 : utf8Decode (b :: b1 :: b2 :: b3 :: r)
        = (if b < 128 then (utf8Decode (b1 :: b2 :: b3 :: r)).map (fun cs => Char.ofNat b :: cs)
          else if 194 ≤ b ∧ b ≤ 223 then
            (if 128 ≤ b1 ∧ b1 ≤ 191 then
              (utf8Decode (b2 :: b3 :: r)).map
                (fun cs => Char.ofNat ((b - 192) * 64 + (b1 - 128)) :: cs)
            else none)
          else if 224 ≤ b ∧ b ≤ 239 then
            (if (if b = 224 then 160 ≤ b1 ∧ b1 ≤ 191
                else if b = 237 then 128 ≤ b1 ∧ b1 ≤ 159
                else 128 ≤ b1 ∧ b1 ≤ 191) ∧ (128 ≤ b2 ∧ b2 ≤ 191) then
              (utf8Decode (b3 :: r)).map
                (fun cs => Char.ofNat ((b - 224) * 4096 + (b1 - 128) * 64 + (b2 - 128)) :: cs)
            else none)
          else if 240 ≤ b ∧ b ≤ 244 then
            (if (if b = 240 then 144 ≤ b1 ∧ b1 ≤ 191
                else if b = 244 then 128 ≤ b1 ∧ b1 ≤ 143
                else 128 ≤ b1 ∧ b1 ≤ 191) ∧ (128 ≤ b2 ∧ b2 ≤ 191) ∧ (128 ≤ b3 ∧ b3 ≤ 191) then
              (utf8Decode r).map
                (fun cs =>
                  Char.ofNat ((b - 240) * 262144 + (b1 - 128) * 4096 + (b2 - 128) * 64
                    + (b3 - 128)) :: cs)
            else none)
          else none) := rfl
    rw [h0, if_pos hb]

lemma utf8Decode_ascii : ∀ (bs : List Nat), (∀ b ∈ bs, b < 128) →
    utf8Decode bs = some (bs.map Char.ofNat) := by
  intro bs
  induction bs with
  | nil => intro; rfl
  | cons b rest ih =>
    intro h
    have hb : b < 128 := h b (List.mem_cons_self b rest)
    rw [utf8Decode_cons_ascii b rest hb, ih (fun x hx => h x (List.mem_cons_of_mem b hx))]
    rfl

lemma splitRest_length (cs : List Char) (h : '\n' ∈ cs) :
    ((cs.dropWhile (fun c => c != '\n')).tail).length < cs.length := by
  have h1 : cs.dropWhile (fun c => c != '\n') ≠ [] := dropWhile_ne_nil_of_mem_nl cs h
  have h2 : (cs.dropWhile (fun c => c != '\n')).length ≤ cs.length :=
    (List.dropWhile_sublist (fun c => c != '\n')).length_le
  have h3 : 0 < (cs.dropWhile (fun c => c != '\n')).length := List.length_pos.mpr h1
  rw [List.length_tail]
  omega

lemma splitBuffer_no_nl (cs : List Char) (h : '\n' ∉ cs) :
    splitBuffer cs = (cs, []) := by
  rw [splitBuffer, dif_neg h]

lemma splitBuffer_remainder : ∀ n (cs : List Char), cs.length ≤ n →
    '\n' ∉ (splitBuffer cs).1 := by
  intro n
  induction n with
  | zero =>
    intro cs hn
    have : cs = [] := List.eq_nil_of_length_eq_zero (by omega)
    subst this
    rw [splitBuffer_no_nl [] (by simp)]
    simp
  | succ n ih =>
    intro cs hn
    by_cases h : '\n' ∈ cs
    · rw [splitBuffer, dif_pos h]
      exact ih _ (by have := splitRest_length cs h; omega)
    · rw [splitBuffer_no_nl cs h]
      exact h

lemma splitBuffer_append : ∀ n (a : List Char), a.length ≤ n → ∀ b,
    splitBuffer (a ++ b) =
      ((splitBuffer ((splitBuffer a).1 ++ b)).1,
        (splitBuffer a).2 ++ (splitBuffer ((splitBuffer a).1 ++ b)).2) := by
  intro n
  induction n with
  | zero =>
    intro a hn b
    have : a = [] := List.eq_nil_of_length_eq_zero (by omega)
    subst this
    rw [splitBuffer_no_nl [] (by simp)]
    dsimp only
    simp only [List.nil_append]
  | succ n ih =>
    intro a hn b
    by_cases hm : '\n' ∈ a
    · have hd : a.dropWhile (fun c => c != '\n') ≠ [] := dropWhile_ne_nil_of_mem_nl a hm
      have hlen : (a.takeWhile (fun c => c != '\n')).length
          + (a.dropWhile (fun c => c != '\n')).length = a.length := by
        rw [← List.length_append, List.takeWhile_append_dropWhile]
      have hpos : 0 < (a.dropWhile (fun c => c != '\n')).length := List.length_pos.mpr hd
      have htake : (a ++ b).takeWhile (fun c => c != '\n') = a.takeWhile (fun c => c != '\n') := by
        rw [List.takeWhile_append, if_neg (by omega)]
      have hdrop : (a ++ b).dropWhile (fun c => c != '\n')
          = a.dropWhile (fun c => c != '\n') ++ b := by
        rw [List.dropWhile_append, if_neg (by simp [List.isEmpty_iff, hd])]
      obtain ⟨x, xs, hxx⟩ := List.exists_cons_of_ne_nil hd
      have htail : ((a ++ b).dropWhile (fun c => c != '\n')).tail
          = (a.dropWhile (fun c => c != '\n')).tail ++ b := by
        rw [hdrop, hxx]
        rfl
      have hrest : ((a.dropWhile (fun c => c != '\n')).tail).length ≤ n := by
        have := splitRest_length a hm
        omega
      have hsa : splitBuffer a
          = ((splitBuffer ((a.dropWhile (fun c => c != '\n')).tail)).1,
            (if (rustTrim (a.takeWhile (fun c => c != '\n'))).isEmpty then []
              else [a.takeWhile (fun c => c != '\n')])
              ++ (splitBuffer ((a.dropWhile (fun c => c != '\n')).tail)).2) := by
        rw [splitBuffer, dif_pos hm]
      have hsab : splitBuffer (a ++ b)
          = ((splitBuffer (((a.dropWhile (fun c => c != '\n')).tail) ++ b)).1,
            (if (rustTrim (a.takeWhile (fun c => c != '\n'))).isEmpty then []
              else [a.takeWhile (fun c => c != '\n')])
              ++ (splitBuffer (((a.dropWhile (fun c => c != '\n')).tail) ++ b)).2) := by
        rw [splitBuffer, dif_pos (List.mem_append_left b hm), htail, htake]
      rw [hsab, hsa, ih _ hrest b]
      dsimp only
      rw [List.append_assoc]
    · rw [splitBuffer_no_nl a hm]
      dsimp only
      simp only [List.nil_append]

lemma parseQueue_stuck : ∀ Q Q', parseQueue Q = (Q', .ok none) → parseQueue Q' = (Q', .ok none) := by
  intro Q
  induction Q with
  | nil =>
    intro Q' h
    simp only [parseQueue, Prod.mk.injEq] at h
    obtain ⟨h1, -⟩ := h
    subst h1
    rfl
  | cons line qt ih =>
    intro Q' h
    cases hF : findHeader line with
    | none =>
      simp only [parseQueue, hF] at h
      exact ih Q' h
    | some r3 =>
      obtain ⟨th, ch, ld⟩ := r3
      simp only [parseQueue, hF] at h
      split_ifs at h with e1 e2 e3 e4
      · simp at h
      · simp at h
      · simp at h
      · rcases qt with _ | ⟨a, _ | ⟨b, qt3⟩⟩
        · dsimp only at h
          simp only [Prod.mk.injEq] at h
          obtain ⟨h1, -⟩ := h
          subst h1
          simp only [parseQueue, hF]
          rw [if_neg e1, if_neg e2, if_neg e3, if_pos e4]
        · dsimp only at h
          simp only [Prod.mk.injEq] at h
          obtain ⟨h1, -⟩ := h
          subst h1
          simp only [parseQueue, hF]
          rw [if_neg e1, if_neg e2, if_neg e3, if_pos e4]
        · dsimp only at h
          split_ifs at h with e5 <;> simp at h
      · simp at h

lemma parseQueue_append : ∀ Q Q2,
    parseQueue (Q ++ Q2) =
      (match parseQueue Q with
        | (Q', Except.ok none) => parseQueue (Q' ++ Q2)
        | (Q', r) => (Q' ++ Q2, r)) := by
  intro Q
  induction Q with
  | nil => intro Q2; rfl
  | cons line qt ih =>
    intro Q2
    cases hF : findHeader line with
    | none =>
      have hL : parseQueue ((line :: qt) ++ Q2) = parseQueue (qt ++ Q2) := by
        rw [List.cons_append]
        simp only [parseQueue, hF]
      have hR : parseQueue (line :: qt) = parseQueue qt := by
        simp only [parseQueue, hF]
      rw [hL, hR, ih Q2]
    | some r3 =>
      obtain ⟨th, ch, ld⟩ := r3
      by_cases e1 : ld.all isAsciiDigit = false ∨ 2 ^ 64 ≤ digitsVal ld
      · have hR : parseQueue (line :: qt) = (qt, .error .InvalidFormat) := by
          simp only [parseQueue, hF]
          rw [if_pos e1]
        have hL : parseQueue ((line :: qt) ++ Q2) = (qt ++ Q2, .error .InvalidFormat) := by
          rw [List.cons_append]
          simp only [parseQueue, hF]
          rw [if_pos e1]
        rw [hL, hR]
      · by_cases e2 : 2 ^ 32 ≤ hexVal th
        · have hR : parseQueue (line :: qt) = (qt, .error .InvalidFormat) := by
            simp only [parseQueue, hF]
            rw [if_neg e1, if_pos e2]
          have hL : parseQueue ((line :: qt) ++ Q2) = (qt ++ Q2, .error .InvalidFormat) := by
            rw [List.cons_append]
            simp only [parseQueue, hF]
            rw [if_neg e1, if_pos e2]
          rw [hL, hR]
        · by_cases e3 : 2 ^ 32 ≤ hexVal ch
          · have hR : parseQueue (line :: qt) = (qt, .error .InvalidFormat) := by
              simp only [parseQueue, hF]
              rw [if_neg e1, if_neg e2, if_pos e3]
            have hL : parseQueue ((line :: qt) ++ Q2) = (qt ++ Q2, .error .InvalidFormat) := by
              rw [List.cons_append]
              simp only [parseQueue, hF]
              rw [if_neg e1, if_neg e2, if_pos e3]
            rw [hL, hR]
          · by_cases e4 : 0 < digitsVal ld
            · rcases qt with _ | ⟨a, _ | ⟨b, qt3⟩⟩
              · have hR : parseQueue [line] = ([line], .ok none) := by
                  simp only [parseQueue, hF]
                  rw [if_neg e1, if_neg e2, if_neg e3, if_pos e4]
                rw [hR]
              · have hR : parseQueue [line, a] = ([line, a], .ok none) := by
                  simp only [parseQueue, hF]
                  rw [if_neg e1, if_neg e2, if_neg e3, if_pos e4]
                rw [hR]
              · by_cases e5 : rustTrim a = markerLine
                · have hR : parseQueue (line :: a :: b :: qt3)
                      = (qt3, .ok (some (ShairportMetadata.from_item
                          ⟨xmlTag (hexVal th), xmlTag (hexVal ch), payloadOf b⟩))) := by
                    simp only [parseQueue, hF]
                    rw [if_neg e1, if_neg e2, if_neg e3, if_pos e4]
                    rw [if_pos e5]
                  have hL : parseQueue ((line :: a :: b :: qt3) ++ Q2)
                      = (qt3 ++ Q2, .ok (some (ShairportMetadata.from_item
                          ⟨xmlTag (hexVal th), xmlTag (hexVal ch), payloadOf b⟩))) := by
                    rw [List.cons_append, List.cons_append, List.cons_append]
                    simp only [parseQueue, hF]
                    rw [if_neg e1, if_neg e2, if_neg e3, if_pos e4]
                    rw [if_pos e5]
                  rw [hL, hR]
                · have hR : parseQueue (line :: a :: b :: qt3)
                      = (b :: qt3, .ok (some (ShairportMetadata.from_item
                          ⟨xmlTag (hexVal th), xmlTag (hexVal ch), []⟩))) := by
                    simp only [parseQueue, hF]
                    rw [if_neg e1, if_neg e2, if_neg e3, if_pos e4]
                    rw [if_neg e5]
                  have hL : parseQueue ((line :: a :: b :: qt3) ++ Q2)
                      = (b :: qt3 ++ Q2, .ok (some (ShairportMetadata.from_item
                          ⟨xmlTag (hexVal th), xmlTag (hexVal ch), []⟩))) := by
                    rw [List.cons_append, List.cons_append, List.cons_append]
                    simp only [parseQueue, hF]
                    rw [if_neg e1, if_neg e2, if_neg e3, if_pos e4]
                    rw [if_neg e5]
                  rw [hL, hR]
            · have hR : parseQueue (line :: qt)
                  = (qt, .ok (some (ShairportMetadata.from_item
                      ⟨xmlTag (hexVal th), xmlTag (hexVal ch), []⟩))) := by
                simp only [parseQueue, hF]
                rw [if_neg e1, if_neg e2, if_neg e3, if_neg e4]
              have hL : parseQueue ((line :: qt) ++ Q2)
                  = (qt ++ Q2, .ok (some (ShairportMetadata.from_item
                      ⟨xmlTag (hexVal th), xmlTag (hexVal ch), []⟩))) := by
                rw [List.cons_append]
                simp only [parseQueue, hF]
                rw [if_neg e1, if_neg e2, if_neg e3, if_neg e4]
              rw [hL, hR]

lemma drainQueue_step_none (Q Q' : List (List Char)) (h : parseQueue Q = (Q', .ok none)) :
    drainQueue Q = (Q', .ok []) := by
  conv_lhs => unfold drainQueue
  split
  · rename_i Q'' h'
    rw [h] at h'
    simp only [Prod.mk.injEq] at h'
    rw [h'.1]
  · rename_i Q'' e h'
    rw [h] at h'
    simp at h'
  · rename_i Q'' err h'
    rw [h] at h'
    simp at h'

lemma drainQueue_step_some (Q Q' : List (List Char)) (e : ShairportMetadata)
    (h : parseQueue Q = (Q', .ok (some e))) :
    drainQueue Q = ((drainQueue Q').1, (drainQueue Q').2.map (fun evs => e :: evs)) := by
  conv_lhs => unfold drainQueue
  split
  · rename_i Q'' h'
    rw [h] at h'
    simp at h'
  · rename_i Q'' e' h'
    rw [h] at h'
    simp only [Prod.mk.injEq, Except.ok.injEq, Option.some.injEq] at h'
    obtain ⟨h1, h2⟩ := h'
    subst h1
    subst h2
    rfl
  · rename_i Q'' err h'
    rw [h] at h'
    simp at h'

lemma drainQueue_step_error (Q Q' : List (List Char)) (err : MetadataError)
    (h : parseQueue Q = (Q', .error err)) :
    drainQueue Q = (Q', .error err) := by
  conv_lhs => unfold drainQueue
  split
  · rename_i Q'' h'
    rw [h] at h'
    simp at h'
  · rename_i Q'' e' h'
    rw [h] at h'
    simp at h'
  · rename_i Q'' err' h'
    rw [h] at h'
    simp only [Prod.mk.injEq, Except.error.injEq] at h'
    rw [h'.1, h'.2]

lemma drainQueue_congr (A B : List (List Char)) (h : parseQueue A = parseQueue B) :
    drainQueue A = drainQueue B := by
  rcases hB : parseQueue B with ⟨Q', r⟩
  cases r with
  | ok o =>
    cases o with
    | none => rw [drainQueue_step_none A Q' (h.trans hB), drainQueue_step_none B Q' hB]
    | some e => rw [drainQueue_step_some A Q' e (h.trans hB), drainQueue_step_some B Q' e hB]
  | error err => rw [drainQueue_step_error A Q' err (h.trans hB), drainQueue_step_error B Q' err hB]

lemma drainQueue_stuck : ∀ n Q, Q.length ≤ n → ∀ Q' E, drainQueue Q = (Q', .ok E) →
    parseQueue Q' = (Q', .ok none) := by
  intro n
  induction n with
  | zero =>
    intro Q hn Q' E h
    have hQ : Q = [] := List.eq_nil_of_length_eq_zero (by omega)
    subst hQ
    rw [drainQueue_step_none [] [] rfl] at h
    simp only [Prod.mk.injEq, Except.ok.injEq] at h
    obtain ⟨h1, -⟩ := h
    subst h1
    rfl
  | succ n ih =>
    intro Q hn Q' E h
    rcases hp : parseQueue Q with ⟨Qa, r⟩
    cases r with
    | ok o =>
      cases o with
      | none =>
        rw [drainQueue_step_none Q Qa hp] at h
        simp only [Prod.mk.injEq, Except.ok.injEq] at h
        obtain ⟨h1, -⟩ := h
        subst h1
        exact parseQueue_stuck Q Qa hp
      | some e =>
        have hshrink : Qa.length < Q.length := parseQueue_some_shrinks Q Qa e hp
        have hdQ := drainQueue_step_some Q Qa e hp
        rcases hda : drainQueue Qa with ⟨Qb, rb⟩
        rw [hda] at hdQ
        dsimp only at hdQ
        cases rb with
        | ok E' =>
          dsimp only [Except.map] at hdQ
          rw [hdQ] at h
          simp only [Prod.mk.injEq, Except.ok.injEq] at h
          obtain ⟨h1, -⟩ := h
          subst h1
          exact ih Qa (by omega) Qb E' hda
        | error err =>
          dsimp only [Except.map] at hdQ
          rw [hdQ] at h
          simp at h
    | error err =>
      rw [drainQueue_step_error Q Qa err hp] at h
      simp at h

lemma drainQueue_append : ∀ n Q, Q.length ≤ n → ∀ Q2,
    (∀ Q' E, drainQueue Q = (Q', .ok E) →
      drainQueue (Q ++ Q2)
        = ((drainQueue (Q' ++ Q2)).1, (drainQueue (Q' ++ Q2)).2.map (fun r => E ++ r)))
    ∧ (∀ Q' err, drainQueue Q = (Q', .error err) → (drainQueue (Q ++ Q2)).2 = .error err) := by
  intro n
  induction n with
  | zero =>
    intro Q hn Q2
    have hQ : Q = [] := List.eq_nil_of_length_eq_zero (by omega)
    subst hQ
    constructor
    · intro Q' E h
      rw [drainQueue_step_none [] [] rfl] at h
      simp only [Prod.mk.injEq, Except.ok.injEq] at h
      obtain ⟨h1, h2⟩ := h
      subst h1
      subst h2
      rcases hd : drainQueue ([] ++ Q2) with ⟨S, r⟩
      dsimp only
      cases r <;> rfl
    · intro Q' err h
      rw [drainQueue_step_none [] [] rfl] at h
      simp at h
  | succ n ih =>
    intro Q hn Q2
    rcases hp : parseQueue Q with ⟨Qa, r⟩
    cases r with
    | ok o =>
      cases o with
      | none =>
        have hdQ : drainQueue Q = (Qa, .ok []) := drainQueue_step_none Q Qa hp
        have hpq : parseQueue (Q ++ Q2) = parseQueue (Qa ++ Q2) := by
          rw [parseQueue_append Q Q2, hp]
        have hdcongr : drainQueue (Q ++ Q2) = drainQueue (Qa ++ Q2) := drainQueue_congr _ _ hpq
        constructor
        · intro Q' E h
          rw [hdQ] at h
          simp only [Prod.mk.injEq, Except.ok.injEq] at h
          obtain ⟨h1, h2⟩ := h
          subst h1
          subst h2
          rw [hdcongr]
          rcases hd : drainQueue (Qa ++ Q2) with ⟨S, r2⟩
          dsimp only
          cases r2 <;> rfl
        · intro Q' err h
          rw [hdQ] at h
          simp at h
      | some e =>
        have hshrink : Qa.length < Q.length := parseQueue_some_shrinks Q Qa e hp
        have hdQ := drainQueue_step_some Q Qa e hp
        have hpq : parseQueue (Q ++ Q2) = (Qa ++ Q2, .ok (some e)) := by
          rw [parseQueue_append Q Q2, hp]
        have hdQ2 := drainQueue_step_some (Q ++ Q2) (Qa ++ Q2) e hpq
        have IH := ih Qa (by omega) Q2
        constructor
        · intro Q' E h
          rcases hda : drainQueue Qa with ⟨Qb, rb⟩
          rw [hda] at hdQ
          dsimp only at hdQ
          cases rb with
          | ok E' =>
            dsimp only [Except.map] at hdQ
            rw [hdQ] at h
            simp only [Prod.mk.injEq, Except.ok.injEq] at h
            obtain ⟨h1, h2⟩ := h
            subst h1
            subst h2
            have hIH := IH.1 Qb E' hda
            rw [hdQ2, hIH]
            rcases hd : drainQueue (Qb ++ Q2) with ⟨S, r3⟩
            dsimp only
            cases r3 <;> rfl
          | error err2 =>
            dsimp only [Except.map] at hdQ
            rw [hdQ] at h
            simp at h
        · intro Q' err h
          rcases hda : drainQueue Qa with ⟨Qb, rb⟩
          rw [hda] at hdQ
          dsimp only at hdQ
          cases rb with
          | ok E' =>
            dsimp only [Except.map] at hdQ
            rw [hdQ] at h
            simp at h
          | error err2 =>
            dsimp only [Except.map] at hdQ
            rw [hdQ] at h
            simp only [Prod.mk.injEq, Except.error.injEq] at h
            obtain ⟨-, h2⟩ := h
            subst h2
            rw [hdQ2]
            have hIH := IH.2 Qb err2 hda
            dsimp only
            rw [hIH]
            rfl
    | error err0 =>
      have hdQ : drainQueue Q = (Qa, .error err0) := drainQueue_step_error Q Qa err0 hp
      have hpq : parseQueue (Q ++ Q2) = (Qa ++ Q2, .error err0) := by
        rw [parseQueue_append Q Q2, hp]
      have hdQ2 : drainQueue (Q ++ Q2) = (Qa ++ Q2, .error err0) :=
        drainQueue_step_error _ _ _ hpq
      constructor
      · intro Q' E h
        rw [hdQ] at h
        simp at h
      · intro Q' err h
        rw [hdQ] at h
        simp only [Prod.mk.injEq, Except.error.injEq] at h
        obtain ⟨-, h2⟩ := h
        subst h2
        rw [hdQ2]

lemma feed_data_ascii (st : XmlMetadataParser) (c : List Nat) (hc : ∀ b ∈ c, b < 128) :
    st.feed_data c
      = ⟨(splitBuffer (st.buffer ++ c.map Char.ofNat)).1,
        st.pending_lines ++ (splitBuffer (st.buffer ++ c.map Char.ofNat)).2⟩ := by
  unfold XmlMetadataParser.feed_data
  rw [utf8Decode_ascii c hc]

lemma processChunks_single (st : XmlMetadataParser) (c : List Nat) (hc : ∀ b ∈ c, b < 128) :
    XmlMetadataParser.processChunks st [c]
      = ((drainQueue (st.pending_lines
          ++ (splitBuffer (st.buffer ++ c.map Char.ofNat)).2)).2).map (fun evs => evs ++ []) := by
  simp only [XmlMetadataParser.processChunks]
  rw [feed_data_ascii st c hc]
  unfold XmlMetadataParser.drain
  dsimp only
  rcases hD : drainQueue (st.pending_lines ++ (splitBuffer (st.buffer ++ c.map Char.ofNat)).2)
    with ⟨Q', r⟩
  cases r <;> rfl

lemma processChunks_chunking : ∀ (cs : List (List Nat)) (S : XmlMetadataParser),
    parseQueue S.pending_lines = (S.pending_lines, .ok none) →
    '\n' ∉ S.buffer →
    (∀ c ∈ cs, ∀ b ∈ c, b < 128) →
    XmlMetadataParser.processChunks S cs = XmlMetadataParser.processChunks S [cs.flatten] := by
  intro cs
  induction cs with
  | nil =>
    intro S hstuck hnl _
    rw [List.flatten_nil, processChunks_single S [] (by simp), List.map_nil, List.append_nil,
      splitBuffer_no_nl S.buffer hnl]
    dsimp only
    rw [List.append_nil, drainQueue_step_none S.pending_lines S.pending_lines hstuck]
    rfl
  | cons c cs ih =>
    intro S hstuck hnl hascii
    have hc : ∀ b ∈ c, b < 128 := hascii c (List.mem_cons_self c cs)
    have hcs : ∀ c' ∈ cs, ∀ b ∈ c', b < 128 :=
      fun c' hc' => hascii c' (List.mem_cons_of_mem c hc')
    have hT2ascii : ∀ b ∈ cs.flatten, b < 128 := by
      intro b hb
      obtain ⟨c', hc', hb'⟩ := List.mem_flatten.mp hb
      exact hcs c' hc' b hb'
    have hcf : ∀ b ∈ c ++ cs.flatten, b < 128 := by
      intro b hb
      rcases List.mem_append.mp hb with h | h
      · exact hc b h
      · exact hT2ascii b h
    have hfeed1 : S.feed_data c
        = ⟨(splitBuffer (S.buffer ++ c.map Char.ofNat)).1,
          S.pending_lines ++ (splitBuffer (S.buffer ++ c.map Char.ofNat)).2⟩ :=
      feed_data_ascii S c hc
    have hsplit := splitBuffer_append (S.buffer ++ c.map Char.ofNat).length
      (S.buffer ++ c.map Char.ofNat) le_rfl ((cs.flatten).map Char.ofNat)
    have hsingleR := processChunks_single S (c ++ cs.flatten) hcf
    rw [List.map_append, ← List.append_assoc, hsplit] at hsingleR
    rw [← List.append_assoc] at hsingleR
    rcases hD1 : drainQueue (S.pending_lines ++ (splitBuffer (S.buffer ++ c.map Char.ofNat)).2)
      with ⟨Q2, r1⟩
    have happ := drainQueue_append
      (S.pending_lines ++ (splitBuffer (S.buffer ++ c.map Char.ofNat)).2).length
      (S.pending_lines ++ (splitBuffer (S.buffer ++ c.map Char.ofNat)).2) le_rfl
      ((splitBuffer ((splitBuffer (S.buffer ++ c.map Char.ofNat)).1
        ++ (cs.flatten).map Char.ofNat)).2)
    cases r1 with
    | ok E1 =>
      have hdrain1 : (XmlMetadataParser.feed_data S c).drain
          = (⟨(splitBuffer (S.buffer ++ c.map Char.ofNat)).1, Q2⟩, .ok E1) := by
        rw [hfeed1]
        unfold XmlMetadataParser.drain
        dsimp only
        rw [hD1]
      have hL : XmlMetadataParser.processChunks S (c :: cs)
          = (XmlMetadataParser.processChunks
              ⟨(splitBuffer (S.buffer ++ c.map Char.ofNat)).1, Q2⟩ cs).map (fun r => E1 ++ r) := by
        simp only [XmlMetadataParser.processChunks]
        rw [hdrain1]
      have hstuck2 : parseQueue Q2 = (Q2, .ok none) :=
        drainQueue_stuck _ _ le_rfl Q2 E1 hD1
      have hnl2 : '\n' ∉ (splitBuffer (S.buffer ++ c.map Char.ofNat)).1 :=
        splitBuffer_remainder _ _ le_rfl
      have hih := ih ⟨(splitBuffer (S.buffer ++ c.map Char.ofNat)).1, Q2⟩ hstuck2 hnl2 hcs
      have hsingleL := processChunks_single
        ⟨(splitBuffer (S.buffer ++ c.map Char.ofNat)).1, Q2⟩ cs.flatten hT2ascii
      dsimp only at hsingleL
      have happ1 := happ.1 Q2 E1 hD1
      rw [List.flatten_cons, hL, hih, hsingleL, hsingleR, happ1]
      dsimp only
      cases hD2 : (drainQueue (Q2 ++ (splitBuffer ((splitBuffer (S.buffer ++ c.map Char.ofNat)).1
          ++ (cs.flatten).map Char.ofNat)).2)).2 with
      | ok v => simp [Except.map, List.append_assoc]
      | error err => rfl
    | error err =>
      have hdrain1 : (XmlMetadataParser.feed_data S c).drain
          = (⟨(splitBuffer (S.buffer ++ c.map Char.ofNat)).1, Q2⟩, .error err) := by
        rw [hfeed1]
        unfold XmlMetadataParser.drain
        dsimp only
        rw [hD1]
      have hL : XmlMetadataParser.processChunks S (c :: cs) = .error err := by
        simp only [XmlMetadataParser.processChunks]
        rw [hdrain1]
      have happ2 := happ.2 Q2 err hD1
      rw [List.flatten_cons, hL, hsingleR, happ2]
      rfl

/-- C1: feeding any chunking of a byte sequence to the binary frame decoder
(`feed_data`, drain via `parse_next_item`, `clear_processed` after each
drain) extracts exactly the record sequence of a single-chunk feed. -/
theorem C1_binary_chunk_independence (chunks : List (List Nat)) :
    MetadataParser.new.processChunks chunks
      = MetadataParser.new.processChunks [chunks.flatten] := by
  show MetadataParser.processChunks ⟨[], 0⟩ chunks
    = MetadataParser.processChunks ⟨[], 0⟩ [chunks.flatten]
  rw [processChunks_model chunks [], processChunks_model [chunks.flatten] [],
    modelChunks_flatten chunks [] (by unfold extractOne; rw [if_pos (by simp)]),
    modelChunks_flatten [chunks.flatten] [] (by unfold extractOne; rw [if_pos (by simp)])]
  simp

/-- C2: with a full 12-byte header buffered, a declared length larger than
the remaining unread bytes yields no record and leaves the cursor where it
was (so repeated calls yield no record); once the declared length is
buffered, exactly one record with the declared tags and exactly the declared
payload bytes is returned, the cursor advancing by `12 + length`; a declared
length of 0 yields a record with empty payload at once, consuming 12 bytes. -/
theorem C2_partial_frame_handling (B : List Nat) (p : Nat) (hp : p + 12 ≤ B.length) :
    (B.length - (p + 12) < beU32 ((B.drop (p + 8)).take 4) →
      MetadataParser.parse_next_item ⟨B, p⟩ = (⟨B, p⟩, none)
      ∧ MetadataParser.parse_next_item (MetadataParser.parse_next_item ⟨B, p⟩).1
          = (⟨B, p⟩, none))
    ∧ (beU32 ((B.drop (p + 8)).take 4) ≤ B.length - (p + 12) →
      MetadataParser.parse_next_item ⟨B, p⟩ =
        (⟨B, p + 12 + beU32 ((B.drop (p + 8)).take 4)⟩,
          some ⟨tagRender ((B.drop p).take 4), tagRender ((B.drop (p + 4)).take 4),
            (B.drop (p + 12)).take (beU32 ((B.drop (p + 8)).take 4))⟩)
      ∧ ((B.drop (p + 12)).take (beU32 ((B.drop (p + 8)).take 4))).length
          = beU32 ((B.drop (p + 8)).take 4))
    ∧ (beU32 ((B.drop (p + 8)).take 4) = 0 →
      MetadataParser.parse_next_item ⟨B, p⟩ =
        (⟨B, p + 12⟩,
          some ⟨tagRender ((B.drop p).take 4), tagRender ((B.drop (p + 4)).take 4), []⟩)) := by
  refine ⟨fun hlt => ?_, fun hge => ?_, fun h0 => ?_⟩
  · have hstep : MetadataParser.parse_next_item ⟨B, p⟩ = (⟨B, p⟩, none) := by
      unfold MetadataParser.parse_next_item
      dsimp only
      rw [if_neg (by omega), if_pos hlt]
    exact ⟨hstep, by rw [hstep]; exact hstep⟩
  · constructor
    · unfold MetadataParser.parse_next_item
      dsimp only
      rw [if_neg (by omega), if_neg (by omega)]
    · rw [List.length_take, List.length_drop]
      omega
  · have hge : beU32 ((B.drop (p + 8)).take 4) ≤ B.length - (p + 12) := by omega
    unfold MetadataParser.parse_next_item
    dsimp only
    rw [if_neg (by omega), if_neg (by omega), h0, List.take_zero]

/-- Witness for C2: a 12-byte buffer declaring payload length 1 stalls with
the cursor unmoved. -/
theorem C2_partial_frame_handling_witness :
    MetadataParser.parse_next_item ⟨[97, 98, 99, 100, 101, 102, 103, 104, 0, 0, 0, 1], 0⟩
      = (⟨[97, 98, 99, 100, 101, 102, 103, 104, 0, 0, 0, 1], 0⟩, none) :=
  ((C2_partial_frame_handling [97, 98, 99, 100, 101, 102, 103, 104, 0, 0, 0, 1] 0
    (by decide)).1 (by decide)).1

/-- C3 counterexample: the textual decoder surfaces a record with an EMPTY
payload although its header declared length 5 — the queued header
`<item><type>636f7265</type><code>6d696e6d</code><length>5</length>` is
followed by a line that is not the data-open marker, so the payload stays
empty and a `Title ""` event is emitted (the base64 line stays queued). -/
theorem C3_xml_counterexample :
    XmlMetadataParser.parse_next_metadata
        ⟨[], ["<item><type>636f7265</type><code>6d696e6d</code><length>5</length>".toList,
          "bogus".toList, "QUJDREU=</data></item>".toList]⟩
      = (⟨[], ["QUJDREU=</data></item>".toList]⟩,
          .ok (some (ShairportMetadata.from_item ⟨"core", "minm", []⟩)))
    ∧ findHeader
        "<item><type>636f7265</type><code>6d696e6d</code><length>5</length>".toList
      = some ("636f7265".toList, "6d696e6d".toList, "5".toList)
    ∧ ([] : List Nat).length ≠ digitsVal "5".toList :=
  ⟨rfl, by decide, by decide⟩

/-- C3 (amended to the binary decoder, where the claim holds): every record
returned by `parse_next_item` carries exactly the number of payload bytes
declared in its big-endian length field. -/
theorem C3_binary_declared_length (B : List Nat) (p : Nat) (q : MetadataParser)
    (it : MetadataItem) (h : MetadataParser.parse_next_item ⟨B, p⟩ = (q, some it)) :
    it.data.length = beU32 (((B.drop p).drop 8).take 4) := by
  rw [parse_next_item_view] at h
  cases hE : extractOne (B.drop p) with
  | none => rw [hE] at h; simp at h
  | some r =>
    obtain ⟨it', k⟩ := r
    rw [hE] at h
    simp only [Prod.mk.injEq, Option.some.injEq] at h
    obtain ⟨-, hit⟩ := h
    subst hit
    unfold extractOne at hE
    split_ifs at hE with h1 h2
    simp only [Option.some.injEq, Prod.mk.injEq] at hE
    obtain ⟨hit', -⟩ := hE
    rw [← hit']
    rw [List.length_take, List.length_drop, List.length_drop]
    rw [List.length_drop] at h1 h2
    omega

/-- Witness for C3's amended theorem at a concrete zero-length frame. -/
theorem C3_binary_declared_length_witness :
    (⟨"abcd", "abcd", []⟩ : MetadataItem).data.length
      = beU32 ((((
          [97, 98, 99, 100, 97, 98, 99, 100, 0, 0, 0, 0] : List Nat).drop 0).drop 8).take 4) :=
  C3_binary_declared_length [97, 98, 99, 100, 97, 98, 99, 100, 0, 0, 0, 0] 0
    ⟨[97, 98, 99, 100, 97, 98, 99, 100, 0, 0, 0, 0], 12⟩ ⟨"abcd", "abcd", []⟩ (by decide)

/-- C4: feeding any chunking of an ASCII byte stream (which covers every
valid textual-framing input — header, marker and base64 lines are ASCII) to
the textual decoder via `feed_data` and draining with `parse_next_metadata`
after each chunk yields the same result as feeding the entire input in one
chunk. -/
theorem C4_xml_chunk_independence (chunks : List (List Nat))
    (h : ∀ b ∈ chunks.flatten, b < 128) :
    XmlMetadataParser.new.processChunks chunks
      = XmlMetadataParser.new.processChunks [chunks.flatten] := by
  apply processChunks_chunking chunks XmlMetadataParser.new rfl (List.not_mem_nil '\n')
  intro c hc b hb
  exact h b (List.mem_flatten.mpr ⟨c, hc, hb⟩)

/-- Witness for C4 at a concrete one-byte chunking. -/
theorem C4_xml_chunk_independence_witness :
    (∀ b ∈ ([[10]] : List (List Nat)).flatten, b < 128)
    ∧ XmlMetadataParser.new.processChunks [[10]]
        = XmlMetadataParser.new.processChunks [([[10]] : List (List Nat)).flatten] :=
  ⟨by decide, C4_xml_chunk_independence [[10]] (by decide)⟩

/-- C5 counterexample: a line that is not a well-formed header is not always
discarded as noise — processing it can produce an error. A type tag of nine
hex digits (not eight) still matches the code's regex and the `u32` parse
overflows; a length written with the Arabic-Indic digit U+0665 is captured
by the Unicode-aware `\d` and the ASCII-only `parse::<usize>` fails. Both
lines make `parse_next_metadata` return `InvalidFormat` instead of skipping
to the next queued line. -/
theorem C5_error_on_malformed_header :
    findHeader "<item><type>fffffffff</type><code>6d696e6d</code><length>5</length>".toList
      = some ("fffffffff".toList, "6d696e6d".toList, "5".toList)
    ∧ ("fffffffff".toList).length ≠ 8
    ∧ XmlMetadataParser.parse_next_metadata
        ⟨[], ["<item><type>fffffffff</type><code>6d696e6d</code><length>5</length>".toList]⟩
      = (⟨[], []⟩, .error .InvalidFormat)
    ∧ XmlMetadataParser.parse_next_metadata
        ⟨[], ["<item><type>636f7265</type><code>6d696e6d</code><length>٥</length>".toList]⟩
      = (⟨[], []⟩, .error .InvalidFormat) :=
  ⟨by decide, by decide, rfl, rfl⟩

/-- C5 (amended): a queued line that does not match the header regex is
discarded as noise by `parse_next_metadata` — the outcome is exactly that of
parsing the remaining queue, never an error caused by the noise line. Lines
that do match the regex without being well-formed headers can instead
produce an `InvalidFormat` error (overflowing tag or length, non-ASCII
length digits), as the counterexample shows. -/
theorem C5_noise_line_discarded (R l : List Char) (Q : List (List Char))
    (h : findHeader l = none) :
    XmlMetadataParser.parse_next_metadata ⟨R, l :: Q⟩
      = XmlMetadataParser.parse_next_metadata ⟨R, Q⟩ := by
  unfold XmlMetadataParser.parse_next_metadata
  dsimp only
  rw [show parseQueue (l :: Q) = parseQueue Q by simp only [parseQueue, h]]

/-- Witness for C5 at a concrete non-matching line. -/
theorem C5_noise_line_discarded_witness :
    findHeader "hello".toList = none
    ∧ XmlMetadataParser.parse_next_metadata ⟨[], ["hello".toList]⟩
        = XmlMetadataParser.parse_next_metadata ⟨[], []⟩ :=
  ⟨by decide, C5_noise_line_discarded [] "hello".toList [] (by decide)⟩

/-- C6: on timeout, `read_metadata_once` returns success with an EMPTY event
list — regardless of what the dropped underlying read had already
collected — rather than the partial results the spec (and the code's own
log line) promise. -/
theorem C6_timeout_returns_empty :
    (∀ inner, read_metadata_once true inner = .ok [])
    ∧ read_metadata_once true (.ok [.Title "Song"]) ≠ .ok [.Title "Song"] :=
  ⟨fun _ => rfl, by simp [read_metadata_once]⟩

/-- C7: the three `(type, code)` combinations `("ssnc","pict")`,
`("pict", c)` for any code `c`, and `("core","PICT")` all classify to the
`Picture` variant carrying the payload bytes verbatim. -/
theorem C7_picture_synonyms (c : String) (d : List Nat) :
    ShairportMetadata.from_item ⟨"ssnc", "pict", d⟩ = .Picture d
    ∧ ShairportMetadata.from_item ⟨"pict", c, d⟩ = .Picture d
    ∧ ShairportMetadata.from_item ⟨"core", "PICT", d⟩ = .Picture d := by
  refine ⟨?_, ?_, ?_⟩ <;> simp [ShairportMetadata.from_item]

/-- C8: classifying any `(type, code)` pair absent from the lookup table
yields the `Other` fallback variant whose fields equal the input triple. -/
theorem C8_fallback_verbatim (t c : String) (d : List Nat) (h : ¬ inTable t c) :
    ShairportMetadata.from_item ⟨t, c, d⟩ = .Other t c d := by
  unfold inTable at h
  simp only [not_or] at h
  obtain ⟨h1, h2, h3, h4, h5, h6, h7, h8, h9, h10, h11, h12, h13, h14, h15, h16, h17, h18,
    h19, h20, h21, h22, h23, h24, h25, h26, h27, h28, h29, h30, h31, h32, h33, h34, h35, h36,
    h37, h38, h39, h40, h41, h42, h43, h44, h45, h46⟩ := h
  unfold ShairportMetadata.from_item
  rw [if_neg h1, if_neg h2, if_neg h3, if_neg h4, if_neg h5, if_neg h6, if_neg h7, if_neg h8,
    if_neg h9, if_neg h10, if_neg h11, if_neg h12, if_neg h13, if_neg h14, if_neg h15,
    if_neg h16, if_neg h17, if_neg h18, if_neg h19, if_neg h20, if_neg h21, if_neg h22,
    if_neg h23, if_neg h24, if_neg h25, if_neg h26, if_neg h27, if_neg h28, if_neg h29,
    if_neg h30, if_neg h31, if_neg h32, if_neg h33, if_neg h34, if_neg h35, if_neg h36,
    if_neg h37, if_neg h38, if_neg h39, if_neg h40, if_neg h41, if_neg h42, if_neg h43,
    if_neg (not_or.mpr ⟨h44, not_or.mpr ⟨h45, h46⟩⟩)]

/-- Witness for C8 at a concrete out-of-table pair. -/
theorem C8_fallback_verbatim_witness :
    ¬ inTable "abcd" "wxyz"
    ∧ ShairportMetadata.from_item ⟨"abcd", "wxyz", [1, 2]⟩ = .Other "abcd" "wxyz" [1, 2] :=
  ⟨by decide, C8_fallback_verbatim "abcd" "wxyz" [1, 2] (by decide)⟩

/-- C9: every string-carrying variant carries `data_str` of the payload,
which is the payload decoded as UTF-8 when valid and otherwise the payload
re-encoded as lowercase hex pairs; in particular `("core","minm",b"Song")`
classifies to `Title "Song"` and `("ssnc","pbeg",b"")` to `PlayBegin`. -/
theorem C9_string_payloads (d : List Nat) :
    (∀ cs, utf8Decode d = some cs → data_str d = String.mk cs)
    ∧ (utf8Decode d = none → data_str d = String.join (d.map (fun b => hexPad 2 b)))
    ∧ ShairportMetadata.from_item ⟨"core", "minm", d⟩ = .Title (data_str d)
    ∧ ShairportMetadata.from_item ⟨"core", "asar", d⟩ = .Artist (data_str d)
    ∧ ShairportMetadata.from_item ⟨"core", "asal", d⟩ = .Album (data_str d)
    ∧ ShairportMetadata.from_item ⟨"core", "asgn", d⟩ = .Genre (data_str d)
    ∧ ShairportMetadata.from_item ⟨"core", "asyr", d⟩ = .Year (data_str d)
    ∧ ShairportMetadata.from_item ⟨"core", "ascm", d⟩ = .Comment (data_str d)
    ∧ ShairportMetadata.from_item ⟨"core", "asco", d⟩ = .Composer (data_str d)
    ∧ ShairportMetadata.from_item ⟨"core", "ascp", d⟩ = .Copyright (data_str d)
    ∧ ShairportMetadata.from_item ⟨"core", "astn", d⟩ = .TrackNumber (data_str d)
    ∧ ShairportMetadata.from_item ⟨"core", "astc", d⟩ = .TrackCount (data_str d)
    ∧ ShairportMetadata.from_item ⟨"core", "asdn", d⟩ = .DiscNumber (data_str d)
    ∧ ShairportMetadata.from_item ⟨"core", "asdc", d⟩ = .DiscCount (data_str d)
    ∧ ShairportMetadata.from_item ⟨"core", "asdt", d⟩ = .TrackTime (data_str d)
    ∧ ShairportMetadata.from_item ⟨"core", "assr", d⟩ = .SampleRate (data_str d)
    ∧ ShairportMetadata.from_item ⟨"core", "miid", d⟩ = .ItemId (data_str d)
    ∧ ShairportMetadata.from_item ⟨"core", "mikd", d⟩ = .MediaKind (data_str d)
    ∧ ShairportMetadata.from_item ⟨"core", "asky", d⟩ = .DataKind (data_str d)
    ∧ ShairportMetadata.from_item ⟨"core", "aspl", d⟩ = .PersistentId (data_str d)
    ∧ ShairportMetadata.from_item ⟨"core", "asst", d⟩ = .SortTitle (data_str d)
    ∧ ShairportMetadata.from_item ⟨"core", "assa", d⟩ = .SortArtist (data_str d)
    ∧ ShairportMetadata.from_item ⟨"core", "assu", d⟩ = .SortAlbum (data_str d)
    ∧ ShairportMetadata.from_item ⟨"core", "assc", d⟩ = .SortComposer (data_str d)
    ∧ ShairportMetadata.from_item ⟨"core", "asur", d⟩ = .UserRating (data_str d)
    ∧ ShairportMetadata.from_item ⟨"core", "asul", d⟩ = .DataUrl (data_str d)
    ∧ ShairportMetadata.from_item ⟨"core", "asda", d⟩ = .DateAdded (data_str d)
    ∧ ShairportMetadata.from_item ⟨"core", "asdm", d⟩ = .DateModified (data_str d)
    ∧ ShairportMetadata.from_item ⟨"core", "astm", d⟩ = .TimeStamp (data_str d)
    ∧ ShairportMetadata.from_item ⟨"core", "askd", d⟩ = .Kind (data_str d)
    ∧ ShairportMetadata.from_item ⟨"ssnc", "pvol", d⟩ = .PlayVolume (data_str d)
    ∧ ShairportMetadata.from_item ⟨"ssnc", "stal", d⟩ = .StreamTitle (data_str d)
    ∧ ShairportMetadata.from_item ⟨"ssnc", "snam", d⟩ = .StreamName (data_str d)
    ∧ ShairportMetadata.from_item ⟨"ssnc", "snua", d⟩ = .UserAgent (data_str d)
    ∧ ShairportMetadata.from_item ⟨"ssnc", "prgr", d⟩ = .Progress (data_str d)
    ∧ ShairportMetadata.from_item ⟨"ssnc", "mdst", d⟩ = .MetadataStart (data_str d)
    ∧ ShairportMetadata.from_item ⟨"ssnc", "mden", d⟩ = .MetadataEnd (data_str d)
    ∧ ShairportMetadata.from_item ⟨"core", "caps", d⟩ = .Capabilities (data_str d)
    ∧ ShairportMetadata.from_item ⟨"core", "minm", [83, 111, 110, 103]⟩ = .Title "Song"
    ∧ ShairportMetadata.from_item ⟨"ssnc", "pbeg", []⟩ = .PlayBegin := by
  refine ⟨fun cs h => data_str_utf8 d cs h, fun h => data_str_hex d h,
    ?_, ?_, ?_, ?_, ?_, ?_, ?_, ?_, ?_, ?_, ?_, ?_, ?_, ?_, ?_, ?_, ?_, ?_,
    ?_, ?_, ?_, ?_, ?_, ?_, ?_, ?_, ?_, ?_, ?_, ?_, ?_, ?_, ?_, ?_, ?_, ?_,
    by decide, by decide⟩ <;> simp [ShairportMetadata.from_item]

/-- Witness for C9 at a payload that is not valid UTF-8. -/
theorem C9_string_payloads_witness :
    utf8Decode [255] = none
    ∧ data_str [255] = String.join ([255].map (fun b => hexPad 2 b)) :=
  ⟨by decide, (C9_string_payloads [255]).2.1 (by decide)⟩

/-- C10: a chunk fed to the textual decoder that is not valid UTF-8 as a
whole is discarded entirely — remainder buffer and pending-line queue are
unchanged, even when the chunk contains valid text and newlines around the
offending bytes. -/
theorem C10_invalid_utf8_chunk_dropped (st : XmlMetadataParser) (data : List Nat)
    (h : utf8Decode data = none) :
    st.feed_data data = st := by
  unfold XmlMetadataParser.feed_data
  rw [h]

/-- Witness for C10: a chunk holding valid text and a newline on both sides
of one invalid byte is dropped whole. -/
theorem C10_invalid_utf8_chunk_dropped_witness :
    utf8Decode [104, 105, 255, 10, 104] = none
    ∧ XmlMetadataParser.feed_data ⟨['a'], [['b']]⟩ [104, 105, 255, 10, 104]
        = ⟨['a'], [['b']]⟩ :=
  ⟨by decide,
    C10_invalid_utf8_chunk_dropped ⟨['a'], [['b']]⟩ [104, 105, 255, 10, 104] (by decide)⟩
